import Mathlib

/-!
Verification development for the stock-analysis repository.

The numeric core of the repository is shallowly embedded here:

* `BaseAnalyzer._prepare_data` / `_handle_missing_values` / `_validate_dataframe`
  (src/stock_analysis/base_analyzer.py) as `prepare_data`, `ffillRows`, `validate`;
* `BaseAnalyzer._calculate_returns` as `calculate_returns` (pandas `pct_change`
  with its default pad fill, followed by `fillna(0)`);
* `CorrelationAnalyzer.calculate_returns_correlation` and the strong-pair report
  of `_print_correlation_analysis` (src/stock_analysis/correlation_analyzer.py),
  plus the standalone script variant `analyze_correlation`
  (src/correlation_analysis.py) with its different sort key;
* `ClusterAnalyzer.perform_clustering` / `find_optimal_clusters`
  (src/stock_analysis/cluster_analyzer.py), with the k-means fit of the
  scikit-learn library abstracted as an arbitrary deterministic function
  (fixed `random_state=42`, `n_init=10` mean the library call is a function of
  its inputs);
* `TimeWindowAnalyzer.calculate_rolling_correlation` / `analyze_volatility` /
  `analyze_volume_price_correlation` (src/stock_analysis/time_window_analyzer.py).

Dates are modelled as naturals (pandas timestamps are totally ordered; only
their order matters to the code).  Numeric cell values are rationals; a pandas
NaN cell is `Option.none`.  Statistics whose value needs a square root
(Pearson correlation, rolling volatility) land in `ℝ`; their definedness test
(`divisor != 0` in pandas `nancorr`, ddof=1 in `Rolling.std`) stays in `ℚ` and
is decidable.  Division of rationals by a zero prior close is an IEEE infinity
in the source; theorems about return values therefore assume positive closes.
-/

namespace StockSpec

/-- Error taxonomy: `schemaError` models the
`ValueError("数据缺少必要的列 …")` raised by `_prepare_data`;
`insufficientData` models the spec's `InsufficientDataError` (the
`ValueError("没有足够的数据 …")` of `calculate_rolling_correlation`);
`duplicateAxis` models pandas' `ValueError: cannot reindex from a duplicate
axis`, raised when column assignment must align a series whose own index has
duplicate labels. -/
inductive AnalysisError where
  | schemaError
  | insufficientData
  | duplicateAxis
  deriving DecidableEq

/-- One raw price table (`pd.DataFrame` as handed to `_prepare_data`).
`hasDateCol` records whether a `trade_date` column is present (the dates of
the rows are the parsed values of that column); `numNames` are the names of
the numeric columns, in order; each row is the parsed trade date together
with the numeric cells, `none` being NaN. -/
structure RawFrame where
  hasDateCol : Bool
  numNames : List String
  rows : List (Nat × List (Option ℚ))
  deriving DecidableEq

/-- Result of `_prepare_data`: the same row shape, now sorted by date and
forward-filled, with the date column moved to the index. -/
structure PreparedFrame where
  numNames : List String
  rows : List (Nat × List (Option ℚ))
  deriving DecidableEq

/-- `BaseAnalyzer._validate_dataframe(df, ['trade_date', 'close'])`:
`all(col in df.columns for col in required_cols)`. -/
def validate (df : RawFrame) : Bool :=
  df.hasDateCol && df.numNames.contains "close"

/-- Row order used by `df.sort_index()`: compare the (parsed) trade dates. -/
def rowLe (a b : Nat × List (Option ℚ)) : Prop := a.1 ≤ b.1

instance : DecidableRel rowLe := fun a b => Nat.decLe a.1 b.1

instance : IsTotal (Nat × List (Option ℚ)) rowLe := ⟨fun a b => Nat.le_total a.1 b.1⟩

instance : IsTrans (Nat × List (Option ℚ)) rowLe := ⟨fun _ _ _ => Nat.le_trans⟩

/-- Forward-fill one row against the previously seen values (`last`): a NaN
cell takes the last known value of its column, a present cell replaces it.
This is the row step of `fillna(method='ffill')` in `_handle_missing_values`. -/
def fillRow : List (Option ℚ) → List (Option ℚ) → List (Option ℚ)
  | _, [] => []
  | [], v :: vs => v :: fillRow [] vs
  | c :: cs, v :: vs => (match v with | some w => some w | none => c) :: fillRow cs vs

/-- Forward-fill all rows in date order, threading the last-known values.
`_handle_missing_values` applies this to every numeric column (all value
columns of the model are numeric). -/
def ffillRows (last : List (Option ℚ)) : List (Nat × List (Option ℚ)) → List (Nat × List (Option ℚ))
  | [] => []
  | (d, r) :: rs => (d, fillRow last r) :: ffillRows (fillRow last r) rs

/-- `BaseAnalyzer._prepare_data`: validate the required columns, set the date
index, sort by date, forward-fill.  Missing required columns raise
(`SchemaError`); nothing else raises. -/
def prepare_data (df : RawFrame) : Except AnalysisError PreparedFrame :=
  if validate df then
    .ok ⟨df.numNames, ffillRows [] (List.insertionSort rowLe df.rows)⟩
  else
    .error .schemaError

/-- Date index of a row list. -/
def frameDates (rows : List (Nat × List (Option ℚ))) : List Nat := rows.map Prod.fst

/-- Column `j` of a row list (NaN for rows too short to have cell `j`). -/
def colOf (rows : List (Nat × List (Option ℚ))) (j : Nat) : List (Option ℚ) :=
  rows.map fun r => r.2.getD j none

/-- Position of the `close` column inside the numeric columns. -/
def closeIdxOf (names : List String) : Nat := names.indexOf "close"

/-- The close column of a prepared frame (`df['close']`). -/
def closeCol (p : PreparedFrame) : List (Option ℚ) := colOf p.rows (closeIdxOf p.numNames)

theorem fillRow_length : ∀ (cs vs : List (Option ℚ)), (fillRow cs vs).length = vs.length
  | [], [] => rfl
  | _ :: _, [] => rfl
  | [], _ :: vs => by simp [fillRow, fillRow_length [] vs]
  | _ :: cs, _ :: vs => by simp [fillRow, fillRow_length cs vs]

theorem ffillRows_length : ∀ (last : List (Option ℚ)) (rows : List (Nat × List (Option ℚ))),
    (ffillRows last rows).length = rows.length
  | _, [] => rfl
  | last, (d, r) :: rs => by simp [ffillRows, ffillRows_length (fillRow last r) rs]

theorem ffillRows_map_fst : ∀ (last : List (Option ℚ)) (rows : List (Nat × List (Option ℚ))),
    (ffillRows last rows).map Prod.fst = rows.map Prod.fst
  | _, [] => rfl
  | last, (d, r) :: rs => by simp [ffillRows, ffillRows_map_fst (fillRow last r) rs]

theorem fillRow_getD : ∀ (cs vs : List (Option ℚ)) (j : Nat), j < vs.length →
    (fillRow cs vs).getD j none = ((vs.getD j none).orElse fun _ => cs.getD j none)
  | [], [], j, h => absurd h (by simp)
  | _ :: _, [], j, h => absurd h (by simp)
  | [], v :: vs, 0, _ => by cases v <;> simp [fillRow]
  | [], v :: vs, j + 1, h => by
      simpa [fillRow] using fillRow_getD [] vs j (by simpa using h)
  | c :: cs, v :: vs, 0, _ => by cases v <;> simp [fillRow]
  | c :: cs, v :: vs, j + 1, h => by
      simpa [fillRow] using fillRow_getD cs vs j (by simpa using h)

theorem ffillRows_chain (j : Nat) : ∀ (rows : List (Nat × List (Option ℚ))) (last : List (Option ℚ)),
    (∀ r ∈ rows, j < r.2.length) →
    List.Chain (fun a b : Option ℚ => a.isSome → b.isSome) (last.getD j none)
      (colOf (ffillRows last rows) j)
  | [], _, _ => List.Chain.nil
  | (d, r) :: rs, last, h => by
    have hr : j < r.length := h (d, r) (by simp)
    have hstep : (last.getD j none).isSome → ((fillRow last r).getD j none).isSome := by
      rw [fillRow_getD last r j hr]
      cases r.getD j none <;> simp
    exact List.Chain.cons hstep
      (ffillRows_chain j rs (fillRow last r) fun q hq => h q (by simp [hq]))

theorem chain_imp_chain' {r : α → α → Prop} {a : α} {l : List α} (h : List.Chain r a l) :
    List.Chain' r l := by
  cases l with
  | nil => trivial
  | cons x xs => exact (List.chain_cons.mp h).2

/-- C1 requires the prepared index to be strictly ascending with no duplicate
dates.  The code (`sort_index`) only sorts; duplicate trade dates survive, so
strictness holds only when the raw dates are distinct.  This is the amended
statement: the index is always ascending (non-strictly), it is strictly
ascending when the raw table has no duplicate dates, and every numeric column,
once it has a defined value, keeps defined values to the end (forward fill;
a leading gap may remain undefined). -/
theorem prepare_data_invariants (df : RawFrame) (p : PreparedFrame) (j : Nat)
    (hok : prepare_data df = .ok p) :
    List.Sorted (· ≤ ·) (frameDates p.rows) ∧
    ((frameDates df.rows).Nodup → List.Sorted (· < ·) (frameDates p.rows)) ∧
    ((∀ r ∈ df.rows, j < r.2.length) →
      List.Chain' (fun a b : Option ℚ => a.isSome → b.isSome) (colOf p.rows j)) := by
  have hrows : p.rows = ffillRows [] (List.insertionSort rowLe df.rows) := by
    unfold prepare_data at hok
    by_cases hv : validate df = true
    · simp [hv] at hok
      rw [← hok]
    · simp [hv] at hok
  have hsorted : List.Sorted rowLe (List.insertionSort rowLe df.rows) :=
    List.sorted_insertionSort rowLe df.rows
  have hdates : frameDates p.rows = (List.insertionSort rowLe df.rows).map Prod.fst := by
    rw [hrows]; exact ffillRows_map_fst _ _
  have hle : List.Sorted (· ≤ ·) (frameDates p.rows) := by
    rw [hdates]
    exact List.pairwise_map.mpr hsorted
  refine ⟨hle, ?_, ?_⟩
  · intro hnd
    have hperm : List.Perm (frameDates p.rows) (frameDates df.rows) := by
      rw [hdates]
      exact (List.perm_insertionSort rowLe df.rows).map Prod.fst
    have hnd2 : (frameDates p.rows).Nodup := hperm.nodup_iff.mpr hnd
    have := hle.and hnd2
    exact this.imp fun h => lt_of_le_of_ne h.1 h.2
  · intro hlen
    have hlen2 : ∀ r ∈ List.insertionSort rowLe df.rows, j < r.2.length := by
      intro r hr
      exact hlen r ((List.perm_insertionSort rowLe df.rows).mem_iff.mp hr)
    rw [hrows]
    exact chain_imp_chain' (ffillRows_chain j _ [] hlen2)

/-- C1 counterexample: a raw table with a duplicated trade date is accepted by
`_prepare_data` (both required columns are present) yet the resulting index is
`[1, 1]` — not strictly ascending, and with a duplicate date.  (Only the
index is asserted: `sort_index` gives no guarantee on the relative order of
equal-date rows.) -/
theorem prepare_data_duplicate_dates :
    (prepare_data ⟨true, ["close"], [(1, [some 5]), (1, [some 6])]⟩).map
        (fun p => frameDates p.rows) = .ok [1, 1] ∧
    ¬ List.Sorted (· < ·) [1, 1] := by
  constructor
  · rfl
  · intro h
    exact absurd (List.rel_of_sorted_cons h _ (by simp)) (lt_irrefl 1)

/-- C1 witness: a concrete out-of-order table with gaps; the prepared index is
ascending and the close column keeps values after its first observation. -/
theorem prepare_data_invariants_witness :
    List.Sorted (· ≤ ·) (frameDates [((1 : Nat), [none, some (2 : ℚ)]), (2, [none, some 2]), (3, [some 7, some 2])]) ∧
    List.Sorted (· < ·) (frameDates [((1 : Nat), [none, some (2 : ℚ)]), (2, [none, some 2]), (3, [some 7, some 2])]) ∧
    List.Chain' (fun a b : Option ℚ => a.isSome → b.isSome)
      (colOf [((1 : Nat), [none, some (2 : ℚ)]), (2, [none, some 2]), (3, [some 7, some 2])] 0) := by
  have h := prepare_data_invariants
    ⟨true, ["close", "vol"], [(3, [some 7, none]), (1, [none, some 2]), (2, [none, none])]⟩
    ⟨["close", "vol"], [(1, [none, some 2]), (2, [none, some 2]), (3, [some 7, some 2])]⟩
    0 rfl
  exact ⟨h.1, h.2.1 (by decide), h.2.2 (by decide)⟩

/-- C4: a raw table lacking `trade_date` or `close` makes `_prepare_data`
raise its schema `ValueError` (never a silent default), and a table having
both required columns never raises on that account. -/
theorem prepare_data_schema (df : RawFrame) :
    ((df.hasDateCol = false ∨ df.numNames.contains "close" = false) →
      prepare_data df = .error .schemaError) ∧
    (df.hasDateCol = true → df.numNames.contains "close" = true →
      prepare_data df ≠ .error .schemaError) := by
  constructor
  · intro h
    have hv : validate df = false := by
      unfold validate
      rcases h with h | h
      · rw [h]; rfl
      · rw [h, Bool.and_false]
    simp [prepare_data, hv]
  · intro h1 h2
    have hv : validate df = true := by
      unfold validate
      rw [h1, h2]; rfl
    simp [prepare_data, hv]

/-- C4 witness: dropping `close` raises the schema error; a table with both
required columns does not. -/
theorem prepare_data_schema_witness :
    prepare_data ⟨true, ["open"], [(1, [some 3])]⟩ = .error .schemaError ∧
    prepare_data ⟨true, ["close"], [(1, [some 3])]⟩ ≠ .error .schemaError := by
  refine ⟨(prepare_data_schema ⟨true, ["open"], [(1, [some 3])]⟩).1 (Or.inr (by decide)),
    (prepare_data_schema ⟨true, ["close"], [(1, [some 3])]⟩).2 rfl (by decide)⟩

/-- Forward-fill a single column (the pad step that pandas `pct_change`
applies by default before dividing). -/
def ffillCol (last : Option ℚ) : List (Option ℚ) → List (Option ℚ)
  | [] => []
  | none :: vs => last :: ffillCol last vs
  | some w :: vs => some w :: ffillCol (some w) vs

/-- Pandas `Series.pct_change()`: pad-fill, then `padded[t]/padded[t-1] - 1`,
the first entry (and any entry whose padded neighbour is still NaN) being NaN.
A zero prior close gives an IEEE infinity in the source; the rational model
has no infinity, so theorems about values assume positive closes. -/
def pct_change (xs : List (Option ℚ)) : List (Option ℚ) :=
  (List.range xs.length).map fun t =>
    if t = 0 then none
    else
      match (ffillCol none xs).getD (t - 1) none, (ffillCol none xs).getD t none with
      | some a, some b => some (b / a - 1)
      | _, _ => none

/-- `BaseAnalyzer._calculate_returns`: `df['close'].pct_change()` followed by
`fillna(0)`, keeping the date index. -/
def calculate_returns (p : PreparedFrame) : List (Nat × ℚ) :=
  (frameDates p.rows).zip ((pct_change (closeCol p)).map fun o => o.getD 0)

/-- Close value at row `t` (0 when the cell is NaN; theorems assume defined). -/
def closeVal (p : PreparedFrame) (t : Nat) : ℚ := ((closeCol p).getD t none).getD 0

theorem ffillCol_of_isSome (last : Option ℚ) :
    ∀ xs : List (Option ℚ), (∀ v ∈ xs, v.isSome) → ffillCol last xs = xs
  | [], _ => rfl
  | none :: vs, h => by simpa using h none (by simp)
  | some w :: vs, h =>
    congrArg (some w :: ·) (ffillCol_of_isSome (some w) vs fun v hv => h v (by simp [hv]))

theorem closeCol_length (p : PreparedFrame) : (closeCol p).length = p.rows.length := by
  simp [closeCol, colOf]

theorem pct_change_length (xs : List (Option ℚ)) : (pct_change xs).length = xs.length := by
  simp [pct_change]

theorem frameDates_length (rows : List (Nat × List (Option ℚ))) :
    (frameDates rows).length = rows.length := by
  simp [frameDates]

theorem calculate_returns_length (p : PreparedFrame) :
    (calculate_returns p).length = p.rows.length := by
  simp [calculate_returns, pct_change_length, closeCol_length, frameDates_length]

theorem pct_change_getD (xs : List (Option ℚ)) (t : Nat) (h : t < xs.length) :
    (pct_change xs).getD t none =
      if t = 0 then none
      else
        match (ffillCol none xs).getD (t - 1) none, (ffillCol none xs).getD t none with
        | some a, some b => some (b / a - 1)
        | _, _ => none := by
  have hlen : t < ((List.range xs.length).map fun t =>
      if t = 0 then none
      else
        match (ffillCol none xs).getD (t - 1) none, (ffillCol none xs).getD t none with
        | some a, some b => some (b / a - 1)
        | _, _ => none : List (Option ℚ)).length := by
    simpa using h
  rw [pct_change, List.getD_eq_getElem _ _ hlen, List.getElem_map, List.getElem_range]

theorem calculate_returns_getD (p : PreparedFrame) (t : Nat) (ht : t < p.rows.length) :
    (calculate_returns p).getD t (0, 0) =
      ((frameDates p.rows).getD t 0,
        ((pct_change (closeCol p)).getD t none).getD 0) := by
  have h1 : t < (calculate_returns p).length := by rw [calculate_returns_length]; exact ht
  have h2 : t < (frameDates p.rows).length := by rw [frameDates_length]; exact ht
  have h3 : t < (pct_change (closeCol p)).length := by
    rw [pct_change_length, closeCol_length]; exact ht
  have h4 : t < ((pct_change (closeCol p)).map fun o => o.getD 0).length := by
    simpa using h3
  rw [List.getD_eq_getElem _ _ h1, List.getD_eq_getElem _ _ h2,
    List.getD_eq_getElem _ _ h3]
  show ((frameDates p.rows).zip ((pct_change (closeCol p)).map fun o => o.getD 0))[t] = _
  rw [List.getElem_zip, List.getElem_map]

/-- C2: on a prepared series with at least two observations and a defined
close column, `_calculate_returns` yields a series of the same length and
index, with first value 0 by convention and `r[t] = close[t]/close[t-1] - 1`
for `t > 0`; on a constant positive close it is identically zero. -/
theorem calculate_returns_spec (p : PreparedFrame)
    (hdef : ∀ v ∈ closeCol p, v.isSome) (hlen : 2 ≤ p.rows.length) :
    (calculate_returns p).length = p.rows.length ∧
    (calculate_returns p).map Prod.fst = frameDates p.rows ∧
    ((calculate_returns p).getD 0 (0, 0)).2 = 0 ∧
    (∀ t, 0 < t → t < p.rows.length →
      ((calculate_returns p).getD t (0, 0)).2 = closeVal p t / closeVal p (t - 1) - 1) ∧
    (∀ c : ℚ, 0 < c → (∀ v ∈ closeCol p, v = some c) →
      ∀ t, t < p.rows.length → ((calculate_returns p).getD t (0, 0)).2 = 0) := by
  have hff : ffillCol none (closeCol p) = closeCol p := ffillCol_of_isSome none _ hdef
  have hsome : ∀ t, t < p.rows.length → ((closeCol p).getD t none).isSome := by
    intro t ht
    have ht2 : t < (closeCol p).length := by rw [closeCol_length]; exact ht
    rw [List.getD_eq_getElem _ _ ht2]
    exact hdef _ (List.getElem_mem ht2)
  have hformula : ∀ t, 0 < t → t < p.rows.length →
      ((calculate_returns p).getD t (0, 0)).2 = closeVal p t / closeVal p (t - 1) - 1 := by
    intro t ht0 ht
    have htc : t < (closeCol p).length := by rw [closeCol_length]; exact ht
    rw [calculate_returns_getD p t ht, pct_change_getD _ t htc, hff]
    obtain ⟨b, hb⟩ := Option.isSome_iff_exists.mp (hsome t ht)
    obtain ⟨a, ha⟩ := Option.isSome_iff_exists.mp (hsome (t - 1) (lt_of_le_of_lt (Nat.sub_le t 1) ht))
    simp only [Nat.pos_iff_ne_zero.mp ht0, if_false, ha, hb, Option.getD_some]
    unfold closeVal
    rw [ha, hb]
    simp
  refine ⟨calculate_returns_length p, ?_, ?_, hformula, ?_⟩
  · unfold calculate_returns
    apply List.map_fst_zip
    simp [pct_change_length, closeCol_length, frameDates_length]
  · have h0 : (0 : Nat) < p.rows.length := lt_of_lt_of_le (by norm_num) hlen
    have htc : (0 : Nat) < (closeCol p).length := by rw [closeCol_length]; exact h0
    rw [calculate_returns_getD p 0 h0, pct_change_getD _ 0 htc]
    simp
  · intro c hc hconst t ht
    rcases Nat.eq_zero_or_pos t with rfl | ht0
    · have htc : (0 : Nat) < (closeCol p).length := by rw [closeCol_length]; exact ht
      rw [calculate_returns_getD p 0 ht, pct_change_getD _ 0 htc]
      simp
    · rw [hformula t ht0 ht]
      have hval : ∀ s, s < p.rows.length → closeVal p s = c := by
        intro s hs
        have hsc : s < (closeCol p).length := by rw [closeCol_length]; exact hs
        have := hconst _ (List.getElem_mem hsc)
        rw [closeVal, List.getD_eq_getElem _ _ hsc, this]
        rfl
      rw [hval t ht, hval (t - 1) (lt_of_le_of_lt (Nat.sub_le t 1) ht),
        div_self (ne_of_gt hc), sub_self]

/-- C2 witness: closes 2 then 3 give `r[0] = 0` and `r[1] = 3/2 - 1`. -/
theorem calculate_returns_spec_witness :
    ((calculate_returns ⟨["close"], [(1, [some 2]), (2, [some 3])]⟩).getD 0 (0, 0)).2 = 0 ∧
    ((calculate_returns ⟨["close"], [(1, [some 2]), (2, [some 3])]⟩).getD 1 (0, 0)).2 =
      closeVal ⟨["close"], [(1, [some 2]), (2, [some 3])]⟩ 1 /
        closeVal ⟨["close"], [(1, [some 2]), (2, [some 3])]⟩ 0 - 1 := by
  have h := calculate_returns_spec ⟨["close"], [(1, [some 2]), (2, [some 3])]⟩
    (by decide) (by decide)
  exact ⟨h.2.2.1, h.2.2.2.1 1 (by decide) (by decide)⟩

/-- C3 counterexample: on a single observation `_calculate_returns` does not
fail; `pct_change` yields one NaN which `fillna(0)` turns into a zero return,
so a one-point series `[(7, 0)]` is returned (the code has no
`InsufficientDataError` path at all). -/
theorem calculate_returns_single_point :
    calculate_returns ⟨["close"], [(7, [some 5])]⟩ = [(7, 0)] := rfl

/-- C3 amended: on fewer than two observations `_calculate_returns` returns a
zero return series of the same length and index instead of failing. -/
theorem calculate_returns_short (p : PreparedFrame) (h : p.rows.length < 2) :
    calculate_returns p = (frameDates p.rows).map fun d => (d, 0) := by
  obtain ⟨names, rows⟩ := p
  cases rows with
  | nil => rfl
  | cons r rest =>
    cases rest with
    | nil => rfl
    | cons q rest2 => simp at h; omega

/-- C3 witness: a two-free-variable instance of the amended statement at a
concrete empty frame. -/
theorem calculate_returns_short_witness :
    calculate_returns ⟨["close"], [(9, [some 4])]⟩ =
      (frameDates [((9 : Nat), [some (4 : ℚ)])]).map fun d => (d, 0) :=
  calculate_returns_short ⟨["close"], [(9, [some 4])]⟩ (by decide)

/-- Mean of a list of rationals (0 for the empty list, as 0/0 = 0 in ℚ). -/
def listMean (xs : List ℚ) : ℚ := xs.sum / xs.length

/-- Sum of squared deviations from the mean. -/
def sqDevSum (xs : List ℚ) : ℚ := (xs.map fun x => (x - listMean xs) ^ 2).sum

/-- Sum of products of deviations (the covariance numerator of pandas
`nancorr`). -/
def covSum (ps : List (ℚ × ℚ)) : ℚ :=
  (ps.map fun ab =>
    (ab.1 - listMean (ps.map Prod.fst)) * (ab.2 - listMean (ps.map Prod.snd))).sum

/-- Pairwise-complete rows of two aligned columns: only the positions where
both values are defined take part in a pairwise correlation (pandas
`DataFrame.corr` semantics). -/
def pcRows (xs ys : List (Option ℚ)) : List (ℚ × ℚ) :=
  (xs.zip ys).filterMap fun ab =>
    match ab with
    | (some a, some b) => some (a, b)
    | _ => none

/-- Pearson coefficient of two aligned columns, as computed by pandas
`nancorr`: NaN (`none`) when the divisor `sqrt(var_x * var_y)` is zero (which
over the rationals is decidable as `var_x * var_y = 0`), otherwise
`cov / sqrt(var_x * var_y)`. -/
noncomputable def pearson (xs ys : List (Option ℚ)) : Option ℝ :=
  if sqDevSum ((pcRows xs ys).map Prod.fst) * sqDevSum ((pcRows xs ys).map Prod.snd) = 0 then
    none
  else
    some ((covSum (pcRows xs ys) : ℝ) /
      Real.sqrt (((sqDevSum ((pcRows xs ys).map Prod.fst) : ℚ) : ℝ) *
        ((sqDevSum ((pcRows xs ys).map Prod.snd) : ℚ) : ℝ)))

/-- Close-series length of the first instrument.  The first assignment
`returns_data[name] = ...` on the initially empty frame fixes the frame's
index as that first dropna'd return series' integer index `1..N_1-1`; every
later column is aligned (reindexed) to it, longer series being truncated. -/
def firstLenOf (sd : List (String × List ℚ)) : Nat := (sd.getD 0 ("", [])).2.length

/-- One column of the `returns_data` frame of
`calculate_returns_correlation`: the return series `close.pct_change().dropna()`
of one instrument (integer row index `1..N-1`), reindexed to the frame index
`1..L-1` (`L` the first instrument's length): NaN where this instrument has
no row, rows beyond `L-1` truncated away. -/
def alignedReturnCol (L : Nat) (cs : List ℚ) : List (Option ℚ) :=
  (List.range' 1 (L - 1)).map fun t =>
    if t < cs.length then some (cs.getD t 0 / cs.getD (t - 1) 0 - 1) else none

/-- Entry `(i, j)` of the correlation matrix `returns_data.corr()` produced by
`CorrelationAnalyzer.calculate_returns_correlation` from the close series of
the instruments. -/
noncomputable def calculate_returns_correlation (sd : List (String × List ℚ)) (i j : Nat) :
    Option ℝ :=
  pearson (alignedReturnCol (firstLenOf sd) (sd.getD i ("", [])).2)
    (alignedReturnCol (firstLenOf sd) (sd.getD j ("", [])).2)

/-- Variance numerator of instrument `i` against itself (the quantity whose
vanishing makes the pandas diagonal NaN). -/
def diagDev (sd : List (String × List ℚ)) (i : Nat) : ℚ :=
  sqDevSum ((alignedReturnCol (firstLenOf sd) (sd.getD i ("", [])).2).filterMap id)

theorem pcRows_swap : ∀ xs ys : List (Option ℚ), pcRows ys xs = (pcRows xs ys).map Prod.swap
  | [], ys => by cases ys <;> simp [pcRows]
  | _ :: _, [] => by simp [pcRows]
  | x :: xs, y :: ys => by
    have ih := pcRows_swap xs ys
    cases x <;> cases y <;> simp [pcRows] at ih ⊢ <;> exact ih

theorem covSum_swap (ps : List (ℚ × ℚ)) : covSum (ps.map Prod.swap) = covSum ps := by
  unfold covSum
  simp only [List.map_map]
  have h1 : (Prod.fst ∘ Prod.swap : ℚ × ℚ → ℚ) = Prod.snd := rfl
  have h2 : (Prod.snd ∘ Prod.swap : ℚ × ℚ → ℚ) = Prod.fst := rfl
  rw [h1, h2]
  congr 1
  apply List.map_congr_left
  intro ab _
  simp [mul_comm]

theorem pearson_symm (xs ys : List (Option ℚ)) : pearson xs ys = pearson ys xs := by
  unfold pearson
  rw [pcRows_swap xs ys]
  simp only [List.map_map]
  have h1 : (Prod.fst ∘ Prod.swap : ℚ × ℚ → ℚ) = Prod.snd := rfl
  have h2 : (Prod.snd ∘ Prod.swap : ℚ × ℚ → ℚ) = Prod.fst := rfl
  rw [h1, h2, covSum_swap,
    mul_comm (sqDevSum ((pcRows xs ys).map Prod.snd)) (sqDevSum ((pcRows xs ys).map Prod.fst))]
  ring_nf

theorem pcRows_self : ∀ xs : List (Option ℚ),
    pcRows xs xs = (xs.filterMap id).map fun u => (u, u)
  | [] => rfl
  | none :: xs => by simpa [pcRows] using pcRows_self xs
  | some a :: xs => by simpa [pcRows] using pcRows_self xs

theorem sqDevSum_nonneg (xs : List ℚ) : 0 ≤ sqDevSum xs := by
  apply List.sum_nonneg
  intro x hx
  obtain ⟨y, _, rfl⟩ := List.mem_map.mp hx
  positivity

theorem map_fst_dup : ∀ vs : List ℚ, ((vs.map fun u => (u, u)).map Prod.fst) = vs
  | [] => rfl
  | v :: vs => by simp [map_fst_dup vs]

theorem map_snd_dup : ∀ vs : List ℚ, ((vs.map fun u => (u, u)).map Prod.snd) = vs
  | [] => rfl
  | v :: vs => by simp [map_snd_dup vs]

theorem covSum_dup (vs : List ℚ) : covSum (vs.map fun u => (u, u)) = sqDevSum vs := by
  unfold covSum sqDevSum
  rw [map_fst_dup, map_snd_dup, List.map_map]
  congr 1
  apply List.map_congr_left
  intro u _
  simp [pow_two]

theorem pearson_self (xs : List (Option ℚ)) (h : sqDevSum (xs.filterMap id) ≠ 0) :
    pearson xs xs = some 1 := by
  unfold pearson
  rw [pcRows_self, map_fst_dup, map_snd_dup, covSum_dup]
  rw [if_neg (by simpa using mul_self_ne_zero.mpr h)]
  congr 1
  have hnn : (0 : ℝ) ≤ ((sqDevSum (xs.filterMap id) : ℚ) : ℝ) := by
    exact_mod_cast sqDevSum_nonneg _
  rw [Real.sqrt_mul_self hnn]
  exact div_self (by exact_mod_cast h)

/-- C5 requires symmetry and a unit diagonal.  Pandas `corr` leaves the
diagonal NaN when a column has zero variance over its defined entries (a
constant return series, or one truncated to fewer than two points by the
alignment to the first instrument's index), so the amended statement is: the
matrix is always symmetric, and a diagonal entry is exactly 1.0 whenever the
instrument's aligned (first-index, truncated) return column has a nonzero
squared-deviation sum. -/
theorem correlation_symm_and_diag (sd : List (String × List ℚ)) (i j : Nat) :
    calculate_returns_correlation sd i j = calculate_returns_correlation sd j i ∧
    (diagDev sd i ≠ 0 → calculate_returns_correlation sd i i = some 1) := by
  constructor
  · exact pearson_symm _ _
  · intro h
    exact pearson_self _ h

/-- C5 counterexample: an instrument with constant closes has a constant
(zero) return series, hence zero variance, and pandas `corr` puts NaN — not
1.0 — on its diagonal. -/
theorem correlation_constant_diagonal :
    calculate_returns_correlation [("A", [1, 1, 1])] 0 0 ≠ some 1 := by
  have hrange : List.range' 1 (firstLenOf [("A", ([1, 1, 1] : List ℚ))] - 1) = [1, 2] := rfl
  have hcol : alignedReturnCol (firstLenOf [("A", [1, 1, 1])])
      (([("A", ([1, 1, 1] : List ℚ))].getD 0 ("", [])).2) = [some 0, some 0] := by
    unfold alignedReturnCol
    rw [hrange]
    norm_num
  have h : calculate_returns_correlation [("A", [1, 1, 1])] 0 0 = none := by
    unfold calculate_returns_correlation
    rw [hcol]
    unfold pearson
    rw [if_pos (by
      norm_num [pcRows, sqDevSum, listMean, List.filterMap_cons, List.filterMap_nil,
        List.zip, List.zipWith])]
  rw [h]
  simp

/-- C5 witness: an instrument with non-constant returns has nonzero variance,
so its diagonal entry is exactly 1, and the matrix is symmetric at (0, 1).
The last conjunct exercises the first-index alignment: B's four closes are
truncated to A's single return row, so B's diagonal is undefined, not 1. -/
theorem correlation_symm_and_diag_witness :
    calculate_returns_correlation [("A", [1, 2, 1])] 0 0 = some 1 ∧
    calculate_returns_correlation [("A", [1, 2, 1])] 0 1 =
      calculate_returns_correlation [("A", [1, 2, 1])] 1 0 ∧
    calculate_returns_correlation [("A", [1, 2]), ("B", [1, 1, 1, 2])] 1 1 = none := by
  refine ⟨(correlation_symm_and_diag [("A", [1, 2, 1])] 0 0).2 ?_,
    (correlation_symm_and_diag [("A", [1, 2, 1])] 0 1).1, ?_⟩
  · have hrange : List.range' 1 (firstLenOf [("A", ([1, 2, 1] : List ℚ))] - 1) = [1, 2] := rfl
    have hcol : alignedReturnCol (firstLenOf [("A", [1, 2, 1])])
        (([("A", ([1, 2, 1] : List ℚ))].getD 0 ("", [])).2) = [some 1, some (-(1 / 2))] := by
      unfold alignedReturnCol
      rw [hrange]
      norm_num
    unfold diagDev
    rw [hcol]
    norm_num [sqDevSum, listMean, List.filterMap_cons, List.filterMap_nil]
  · have hrange : List.range' 1
        (firstLenOf [("A", ([1, 2] : List ℚ)), ("B", [1, 1, 1, 2])] - 1) = [1] := rfl
    have hcol : alignedReturnCol (firstLenOf [("A", ([1, 2] : List ℚ)), ("B", [1, 1, 1, 2])])
        (([("A", ([1, 2] : List ℚ)), ("B", [1, 1, 1, 2])].getD 1 ("", [])).2) = [some 0] := by
      unfold alignedReturnCol
      rw [hrange]
      norm_num
    unfold calculate_returns_correlation
    rw [hcol]
    unfold pearson
    rw [if_pos (by
      norm_num [pcRows, sqDevSum, listMean, List.filterMap_cons, List.filterMap_nil,
        List.zip, List.zipWith])]

/-- A correlation matrix as the pair-report loops see it: row/column names and
an entry function (`matrix.iloc[i, j]`). -/
structure CorrMat where
  names : List String
  entry : Nat → Nat → ℚ

/-- The strong pairs in the row-major enumeration order of
`_print_correlation_analysis`: `for i in range(n): for j in range(i+1, n)`,
keeping `(names[i], names[j], corr)` when `abs(corr) > 0.5`. -/
def strong_pairs_raw (M : CorrMat) : List (String × String × ℚ) :=
  (List.range M.names.length).foldr (fun i acc =>
    ((List.range' (i + 1) (M.names.length - (i + 1))).filterMap fun j =>
      if 1 / 2 < |M.entry i j| then
        some (M.names.getD i "", M.names.getD j "", M.entry i j)
      else none) ++ acc) []

/-- Sort order of `high_corr_pairs.sort(key=lambda x: abs(x[2]), reverse=True)`:
descending absolute coefficient; the non-strict comparison makes the insertion
sort stable, exactly like Python's stable `list.sort`. -/
def absGe (a b : String × String × ℚ) : Prop := |b.2.2| ≤ |a.2.2|

instance : DecidableRel absGe := fun a b => inferInstanceAs (Decidable (|b.2.2| ≤ |a.2.2|))

instance : IsTotal (String × String × ℚ) absGe := ⟨fun _ _ => le_total _ _⟩

instance : IsTrans (String × String × ℚ) absGe := ⟨fun _ _ _ hab hbc => le_trans hbc hab⟩

/-- `CorrelationAnalyzer._print_correlation_analysis`: collect the strong
pairs in row-major order, then sort by descending absolute coefficient
(stable, so ties keep the row-major order). -/
def classify_strong_pairs (M : CorrMat) : List (String × String × ℚ) :=
  List.insertionSort absGe (strong_pairs_raw M)

theorem mem_foldr_append {β : Type} (f : Nat → List β) (p : β) :
    ∀ l : List Nat, (p ∈ l.foldr (fun i acc => f i ++ acc) []) ↔ ∃ i ∈ l, p ∈ f i
  | [] => by simp
  | i :: t => by simp [mem_foldr_append f p t]

theorem mem_strong_pairs_raw (M : CorrMat) (p : String × String × ℚ) :
    p ∈ strong_pairs_raw M ↔
      ∃ i j, i < j ∧ j < M.names.length ∧ 1 / 2 < |M.entry i j| ∧
        p = (M.names.getD i "", M.names.getD j "", M.entry i j) := by
  unfold strong_pairs_raw
  rw [mem_foldr_append]
  constructor
  · rintro ⟨i, hi, hp⟩
    obtain ⟨j, hj, hpj⟩ := List.mem_filterMap.mp hp
    have hji := List.mem_range'_1.mp hj
    have hin := List.mem_range.mp hi
    by_cases ht : 1 / 2 < |M.entry i j|
    · rw [if_pos ht] at hpj
      exact ⟨i, j, by omega, by omega, ht, (Option.some_inj.mp hpj).symm⟩
    · rw [if_neg ht] at hpj
      exact absurd hpj (by simp)
  · rintro ⟨i, j, hij, hjn, ht, rfl⟩
    refine ⟨i, List.mem_range.mpr (by omega), List.mem_filterMap.mpr ⟨j, ?_, ?_⟩⟩
    · exact List.mem_range'_1.mpr ⟨by omega, by omega⟩
    · rw [if_pos ht]

theorem nodup_foldr_append {β : Type} (f : Nat → List β) :
    ∀ l : List Nat, l.Nodup → (∀ i ∈ l, (f i).Nodup) →
      (∀ i ∈ l, ∀ i' ∈ l, i ≠ i' → ∀ p ∈ f i, p ∉ f i') →
      (l.foldr (fun i acc => f i ++ acc) []).Nodup
  | [], _, _, _ => List.nodup_nil
  | i :: t, hnd, hblocks, hdisj => by
    simp only [List.foldr_cons]
    rw [List.nodup_append]
    refine ⟨hblocks i (by simp), ?_, ?_⟩
    · exact nodup_foldr_append f t (List.nodup_cons.mp hnd).2
        (fun a ha => hblocks a (by simp [ha]))
        (fun a ha a' ha' hne => hdisj a (by simp [ha]) a' (by simp [ha']) hne)
    · intro p hp hp2
      obtain ⟨i', hi', hpi'⟩ := (mem_foldr_append f p t).mp hp2
      have hne : i ≠ i' := fun h => (List.nodup_cons.mp hnd).1 (h ▸ hi')
      exact hdisj i (by simp) i' (by simp [hi']) hne p hp hpi'

theorem names_getD_inj (M : CorrMat) (h : M.names.Nodup) {i i' : Nat}
    (hi : i < M.names.length) (hi' : i' < M.names.length)
    (heq : M.names.getD i "" = M.names.getD i' "") : i = i' := by
  rw [List.getD_eq_getElem _ _ hi, List.getD_eq_getElem _ _ hi'] at heq
  exact (List.Nodup.getElem_inj_iff h).mp heq


theorem nodup_filterMap_on {β : Type} [DecidableEq β] {f : Nat → Option β} :
    ∀ l : List Nat, l.Nodup →
      (∀ j ∈ l, ∀ j' ∈ l, ∀ p : β, f j = some p → f j' = some p → j = j') →
      (l.filterMap f).Nodup
  | [], _, _ => List.nodup_nil
  | j :: t, hnd, hinj => by
    have hndt := (List.nodup_cons.mp hnd).2
    have ih := nodup_filterMap_on t hndt
      fun a ha a' ha' p hp hp' => hinj a (by simp [ha]) a' (by simp [ha']) p hp hp'
    rw [List.filterMap_cons]
    cases hfj : f j with
    | none => exact ih
    | some p =>
      rw [List.nodup_cons]
      refine ⟨fun hp => ?_, ih⟩
      obtain ⟨j', hj', hpj'⟩ := List.mem_filterMap.mp hp
      have : j = j' := hinj j (by simp) j' (by simp [hj']) p hfj hpj'
      exact (List.nodup_cons.mp hnd).1 (this ▸ hj')

theorem strong_block_mem {M : CorrMat} {i : Nat} {p : String × String × ℚ}
    (hp : p ∈ (List.range' (i + 1) (M.names.length - (i + 1))).filterMap fun j =>
      if 1 / 2 < |M.entry i j| then
        some (M.names.getD i "", M.names.getD j "", M.entry i j)
      else none) :
    ∃ j, i < j ∧ j < M.names.length ∧ 1 / 2 < |M.entry i j| ∧
      p = (M.names.getD i "", M.names.getD j "", M.entry i j) := by
  obtain ⟨j, hj, hpj⟩ := List.mem_filterMap.mp hp
  have hji := List.mem_range'_1.mp hj
  by_cases ht : 1 / 2 < |M.entry i j|
  · rw [if_pos ht] at hpj
    exact ⟨j, by omega, by omega, ht, (Option.some_inj.mp hpj).symm⟩
  · rw [if_neg ht] at hpj
    exact absurd hpj (by simp)

theorem nodup_strong_pairs_raw (M : CorrMat) (h : M.names.Nodup) :
    (strong_pairs_raw M).Nodup := by
  unfold strong_pairs_raw
  apply nodup_foldr_append _ _ (List.nodup_range _)
  · intro i hi
    apply nodup_filterMap_on _ (List.nodup_range' _ _ _)
    intro j hj j' hj' p hpj hpj'
    have hjb := List.mem_range'_1.mp hj
    have hjb' := List.mem_range'_1.mp hj'
    by_cases ht : 1 / 2 < |M.entry i j|
    · rw [if_pos ht] at hpj
      by_cases ht' : 1 / 2 < |M.entry i j'|
      · rw [if_pos ht'] at hpj'
        have heq : M.names.getD j "" = M.names.getD j' "" := by
          have h2 := Option.some_inj.mp (hpj.trans hpj'.symm)
          exact congrArg (fun q : String × String × ℚ => q.2.1) h2
        exact names_getD_inj M h (by omega) (by omega) heq
      · rw [if_neg ht'] at hpj'
        exact absurd hpj' (by simp)
    · rw [if_neg ht] at hpj
      exact absurd hpj (by simp)
  · intro i hi i' hi' hne p hp hp'
    obtain ⟨j, hij, hjn, htj, hpeq⟩ := strong_block_mem hp
    obtain ⟨j', hij', hjn', htj', hpeq'⟩ := strong_block_mem hp'
    have hin := List.mem_range.mp hi
    have hin' := List.mem_range.mp hi'
    have heq : M.names.getD i "" = M.names.getD i' "" :=
      congrArg (fun q : String × String × ℚ => q.1) (hpeq.symm.trans hpeq')
    exact hne (names_getD_inj M h hin hin' heq)

/-- Entries of the worked example of the spec: coefficients
`(A,B) = 0.8`, `(A,C) = 0.3`, `(B,C) = -0.6`, unit diagonal. -/
def exampleEntry : Nat → Nat → ℚ := fun i j =>
  if i = 0 ∧ j = 1 ∨ i = 1 ∧ j = 0 then 4 / 5
  else if i = 0 ∧ j = 2 ∨ i = 2 ∧ j = 0 then 3 / 10
  else if i = 1 ∧ j = 2 ∨ i = 2 ∧ j = 1 then -(3 / 5)
  else 1

/-- Matrix with a tie in absolute (and signed) coefficient:
`(A,B) = (A,C) = 0.6`, `(B,C) = 0`. -/
def tieEntry : Nat → Nat → ℚ := fun i j =>
  if i = 0 ∧ j = 1 ∨ i = 1 ∧ j = 0 then 3 / 5
  else if i = 0 ∧ j = 2 ∨ i = 2 ∧ j = 0 then 3 / 5
  else if i = 1 ∧ j = 2 ∨ i = 2 ∧ j = 1 then 0
  else 1

theorem strong_pairs_raw_tie :
    strong_pairs_raw ⟨["A", "B", "C"], tieEntry⟩ =
      [("A", "B", 3 / 5), ("A", "C", 3 / 5)] := by
  have habs : |(3 / 5 : ℚ)| = 3 / 5 := abs_of_pos (by norm_num)
  have t01 : |tieEntry 0 1| = 3 / 5 := habs
  have t02 : |tieEntry 0 2| = 3 / 5 := habs
  have t12 : |tieEntry 1 2| = 0 := by
    show |(0 : ℚ)| = 0
    simp
  unfold strong_pairs_raw
  norm_num [show List.range 3 = [0, 1, 2] from rfl, List.range', List.getD,
    List.filterMap_cons, List.filterMap_nil, t01, t02, t12]
  exact ⟨rfl, rfl⟩

/-- C6 amended for `_print_correlation_analysis`: the reported sequence is
sorted by descending absolute coefficient, its members are exactly the pairs
`i < j < n` with `|corr| > 0.5` (each unordered pair once, no self pair), it
has no duplicates when the instrument names are distinct, ties keep the
original row-major order (Python's sort is stable: any two pairs of equal
absolute coefficient that appear in some order in the row-major enumeration
appear in that same order in the output — fourth conjunct, with the tie
matrix `(A,B) = (A,C) = 0.6` as a concrete instance in the last conjunct),
and on the spec's example the output is exactly `[(A, B, 0.8), (B, C,
-0.6)]`.  The standalone script `analyze_correlation` violates the tie rule
(see its counterexample). -/
theorem classify_strong_pairs_spec :
    (∀ M : CorrMat, List.Sorted absGe (classify_strong_pairs M)) ∧
    (∀ (M : CorrMat) (p : String × String × ℚ),
      p ∈ classify_strong_pairs M ↔
        ∃ i j, i < j ∧ j < M.names.length ∧ 1 / 2 < |M.entry i j| ∧
          p = (M.names.getD i "", M.names.getD j "", M.entry i j)) ∧
    (∀ M : CorrMat, M.names.Nodup → (classify_strong_pairs M).Nodup) ∧
    (∀ (M : CorrMat) (p q : String × String × ℚ), |p.2.2| = |q.2.2| →
      List.Sublist [p, q] (strong_pairs_raw M) →
      List.Sublist [p, q] (classify_strong_pairs M)) ∧
    classify_strong_pairs ⟨["A", "B", "C"], exampleEntry⟩ =
      [("A", "B", 4 / 5), ("B", "C", -(3 / 5))] ∧
    classify_strong_pairs ⟨["A", "B", "C"], tieEntry⟩ =
      [("A", "B", 3 / 5), ("A", "C", 3 / 5)] := by
  refine ⟨fun M => List.sorted_insertionSort absGe _, fun M p => ?_, fun M h => ?_,
    fun M p q habs hsub => ?_, ?_, ?_⟩
  · rw [classify_strong_pairs, List.mem_insertionSort]
    exact mem_strong_pairs_raw M p
  · exact ((List.perm_insertionSort absGe _).nodup_iff).mpr (nodup_strong_pairs_raw M h)
  · exact List.pair_sublist_insertionSort (le_of_eq habs.symm) hsub
  · have a1 : |exampleEntry 0 1| = 4 / 5 := by
      show |(4 : ℚ) / 5| = 4 / 5
      exact abs_of_pos (by norm_num)
    have a2 : |exampleEntry 0 2| = 3 / 10 := by
      show |(3 : ℚ) / 10| = 3 / 10
      exact abs_of_pos (by norm_num)
    have a3 : |exampleEntry 1 2| = 3 / 5 := by
      show |(-(3 / 5) : ℚ)| = 3 / 5
      rw [abs_neg]
      exact abs_of_pos (by norm_num)
    have hraw : strong_pairs_raw ⟨["A", "B", "C"], exampleEntry⟩ =
        [("A", "B", 4 / 5), ("B", "C", -(3 / 5))] := by
      unfold strong_pairs_raw
      norm_num [show List.range 3 = [0, 1, 2] from rfl, List.range', List.getD,
        List.filterMap_cons, List.filterMap_nil, a1, a2, a3]
      exact ⟨rfl, rfl⟩
    have hb1 : |(-(3 / 5) : ℚ)| = 3 / 5 := a3
    have hb2 : |(4 / 5 : ℚ)| = 4 / 5 := a1
    rw [classify_strong_pairs, hraw]
    simp [List.insertionSort, List.orderedInsert, absGe, hb1, hb2]
    norm_num
  · rw [classify_strong_pairs, strong_pairs_raw_tie]
    have hb : |(3 / 5 : ℚ)| = 3 / 5 := abs_of_pos (by norm_num)
    simp [List.insertionSort, List.orderedInsert, absGe, hb]

/-- C6 witness: the classification of the example matrix has no duplicate
pair (distinct names discharge the nodup hypothesis), and the tied pair of
the tie matrix keeps its row-major order (hypotheses of the stability part
discharged at `(A,B,0.6)`, `(A,C,0.6)`). -/
theorem classify_strong_pairs_spec_witness :
    (classify_strong_pairs ⟨["A", "B", "C"], exampleEntry⟩).Nodup ∧
    List.Sublist [("A", "B", (3 : ℚ) / 5), ("A", "C", 3 / 5)]
      (classify_strong_pairs ⟨["A", "B", "C"], tieEntry⟩) := by
  refine ⟨classify_strong_pairs_spec.2.2.1 ⟨["A", "B", "C"], exampleEntry⟩ (by decide), ?_⟩
  apply classify_strong_pairs_spec.2.2.2.1 ⟨["A", "B", "C"], tieEntry⟩
    ("A", "B", (3 : ℚ) / 5) ("A", "C", 3 / 5) rfl
  rw [strong_pairs_raw_tie]

/-- Lexicographic comparison of the sort tuples `(abs(corr), corr, stock1,
stock2)` used by `analyze_correlation` in src/correlation_analysis.py
(Python compares tuples lexicographically). -/
def tupleCmp (a b : ℚ × ℚ × String × String) : Ordering :=
  (compare a.1 b.1).then ((compare a.2.1 b.2.1).then
    ((compare a.2.2.1 b.2.2.1).then (compare a.2.2.2 b.2.2.2)))

/-- Order of `high_corr_pairs.sort(reverse=True)`: stable descending by the
whole tuple; `a` may precede `b` exactly when `a ≥ b` lexicographically. -/
def tupleGe (a b : ℚ × ℚ × String × String) : Prop := tupleCmp a b ≠ Ordering.lt

instance : DecidableRel tupleGe :=
  fun a b => inferInstanceAs (Decidable (tupleCmp a b ≠ Ordering.lt))

/-- Strong pairs of `analyze_correlation`: the same row-major enumeration as
`_print_correlation_analysis`, but collecting `(abs(corr), corr, s1, s2)`. -/
def analyze_pairs_raw (M : CorrMat) : List (ℚ × ℚ × String × String) :=
  (List.range M.names.length).foldr (fun i acc =>
    ((List.range' (i + 1) (M.names.length - (i + 1))).filterMap fun j =>
      if 1 / 2 < |M.entry i j| then
        some (|M.entry i j|, M.entry i j, M.names.getD i "", M.names.getD j "")
      else none) ++ acc) []

/-- `analyze_correlation`: collect, then `sort(reverse=True)` on the tuples. -/
def analyze_correlation_pairs (M : CorrMat) : List (ℚ × ℚ × String × String) :=
  List.insertionSort tupleGe (analyze_pairs_raw M)

/-- C6 counterexample: on the tie matrix, the row-major enumeration order is
`[(A,B), (A,C)]`, but `analyze_correlation` (one of the two implementations of
the strong-pair report) sorts by the descending full tuple, so `(A,C)` comes
first — ties are broken by descending name comparison, not by original
row/column order as the claim states. -/
theorem analyze_correlation_tie_order :
    analyze_pairs_raw ⟨["A", "B", "C"], tieEntry⟩ =
      [(3 / 5, 3 / 5, "A", "B"), (3 / 5, 3 / 5, "A", "C")] ∧
    analyze_correlation_pairs ⟨["A", "B", "C"], tieEntry⟩ =
      [(3 / 5, 3 / 5, "A", "C"), (3 / 5, 3 / 5, "A", "B")] := by
  have habs : |(3 / 5 : ℚ)| = 3 / 5 := abs_of_pos (by norm_num)
  have t01 : |tieEntry 0 1| = 3 / 5 := habs
  have t02 : |tieEntry 0 2| = 3 / 5 := habs
  have t12 : |tieEntry 1 2| = 0 := by
    show |(0 : ℚ)| = 0
    simp
  have hraw : analyze_pairs_raw ⟨["A", "B", "C"], tieEntry⟩ =
      [(3 / 5, 3 / 5, "A", "B"), (3 / 5, 3 / 5, "A", "C")] := by
    unfold analyze_pairs_raw
    norm_num [show List.range 3 = [0, 1, 2] from rfl, List.range', List.getD,
      List.filterMap_cons, List.filterMap_nil, t01, t02, t12]
    exact ⟨rfl, rfl⟩
  refine ⟨hraw, ?_⟩
  have hcq : compare (3 / 5 : ℚ) (3 / 5) = Ordering.eq := by
    rw [LinearOrder.compare_eq_compareOfLessAndEq]
    norm_num [compareOfLessAndEq]
  have hge : ¬ tupleGe (3 / 5, 3 / 5, "A", "B") (3 / 5, 3 / 5, "A", "C") := by
    unfold tupleGe tupleCmp
    simp only [hcq]
    decide
  rw [analyze_correlation_pairs, hraw]
  simp [List.insertionSort, List.orderedInsert, hge]

/-- `ClusterAnalyzer.perform_clustering`: if a model for `n_clusters` is
cached, reuse its stored labels (`kmeans.labels_`, fitted on the data of the
earlier call, the `data_scaled` argument being ignored on this path);
otherwise fit, record the labels, and cache.  The scikit-learn fit (fixed
`random_state=42`, `n_init=10`) is abstracted as an arbitrary function `fit`
of the data and the cluster count; the returned frame pairs `Stock`
(`range(len(clusters))`) with `Cluster` labels. -/
def perform_clustering {α : Type} (fit : α → Nat → List Nat)
    (models : List (Nat × List Nat)) (data_scaled : α) (n_clusters : Nat) :
    List (Nat × Nat) × List (Nat × List Nat) :=
  match models.lookup n_clusters with
  | some labels => ((List.range labels.length).zip labels, models)
  | none =>
    ((List.range (fit data_scaled n_clusters).length).zip (fit data_scaled n_clusters),
      (n_clusters, fit data_scaled n_clusters) :: models)

/-- Cache effect of `ClusterAnalyzer.find_optimal_clusters`: fit and store a
model for every `k in range(2, max_clusters + 1)` (the inertia/silhouette
lists themselves play no part in the claims). -/
def find_optimal_clusters {α : Type} (fit : α → Nat → List Nat)
    (models : List (Nat × List Nat)) (data_scaled : α) (maxClusters : Nat) :
    List (Nat × List Nat) :=
  (List.range' 2 (maxClusters - 1)).foldl (fun ms k => (k, fit data_scaled k) :: ms) models

/-- C7: with the seed and restart count fixed configuration, `fit` is a
function of its inputs, so clustering is deterministic: a second
`perform_clustering` call on the same instance (any prior cache state)
returns the same labels as the first and leaves the cache unchanged, and a
fresh instance with the same configuration is the same function applied to
the same arguments. -/
theorem perform_clustering_deterministic {α : Type} (fit : α → Nat → List Nat)
    (models : List (Nat × List Nat)) (data_scaled : α) (n_clusters : Nat) :
    (perform_clustering fit (perform_clustering fit models data_scaled n_clusters).2
        data_scaled n_clusters).1 =
      (perform_clustering fit models data_scaled n_clusters).1 ∧
    (perform_clustering fit (perform_clustering fit models data_scaled n_clusters).2
        data_scaled n_clusters).2 =
      (perform_clustering fit models data_scaled n_clusters).2 ∧
    (perform_clustering fit [] data_scaled n_clusters).1 =
      (perform_clustering fit [] data_scaled n_clusters).1 := by
  cases h : models.lookup n_clusters with
  | some labels =>
    unfold perform_clustering
    rw [h]
    simp [h]
  | none =>
    unfold perform_clustering
    rw [h]
    simp [h, List.lookup]

theorem lookup_foldl_skip {β : Type} (f : Nat → β) (k : Nat) :
    ∀ (l : List Nat) (ms : List (Nat × β)), k ∉ l →
      List.lookup k (l.foldl (fun acc k2 => (k2, f k2) :: acc) ms) = List.lookup k ms
  | [], ms, _ => rfl
  | a :: t, ms, hk => by
    rw [List.foldl_cons, lookup_foldl_skip f k t _ (fun h => hk (by simp [h]))]
    have hne : (k == a) = false := by
      simp only [beq_eq_false_iff_ne, ne_eq]
      exact fun h => hk (by simp [h])
    simp [List.lookup, hne]

theorem lookup_foldl_hit {β : Type} (f : Nat → β) (k : Nat) :
    ∀ (l : List Nat) (ms : List (Nat × β)), l.Nodup → k ∈ l →
      List.lookup k (l.foldl (fun acc k2 => (k2, f k2) :: acc) ms) = some (f k)
  | [], _, _, hk => absurd hk (by simp)
  | a :: t, ms, hnd, hk => by
    rw [List.foldl_cons]
    rcases List.mem_cons.mp hk with rfl | hkt
    · have hkt : k ∉ t := (List.nodup_cons.mp hnd).1
      rw [lookup_foldl_skip f k t _ hkt]
      simp [List.lookup]
    · exact lookup_foldl_hit f k t _ (List.nodup_cons.mp hnd).2 hkt

/-- C10: after `find_optimal_clusters` has cached models for
`2..max_clusters` on data `X`, `perform_clustering(Y, k)` with `2 ≤ k ≤
max_clusters` returns the labels of the model fitted on `X` — the
`data_scaled` argument `Y` is ignored on the cache-hit path. -/
theorem perform_clustering_cache_override {α : Type} (fit : α → Nat → List Nat)
    (X Y : α) (k maxClusters : Nat) (h2 : 2 ≤ k) (hk : k ≤ maxClusters) :
    (perform_clustering fit (find_optimal_clusters fit [] X maxClusters) Y k).1 =
      (List.range (fit X k).length).zip (fit X k) := by
  have hmem : k ∈ List.range' 2 (maxClusters - 1) :=
    List.mem_range'_1.mpr ⟨h2, by omega⟩
  have hlook : List.lookup k (find_optimal_clusters fit [] X maxClusters) = some (fit X k) :=
    lookup_foldl_hit (fun k2 => fit X k2) k _ [] (List.nodup_range' _ _ _) hmem
  unfold perform_clustering
  rw [hlook]

/-- C10 witness: with the distinguishing fit `fun x k => [x, k]` on naturals,
sweeping on `X = 0` and then clustering `Y = 1` with `k = 2` returns the
labels `[0, 2]` fitted on `X`, not the labels `[1, 2]` that `Y` would give. -/
theorem perform_clustering_cache_override_witness :
    (perform_clustering (fun x k => [x, k]) (find_optimal_clusters (fun x k => [x, k]) [] 0 3)
        1 2).1 = (List.range 2).zip [0, 2] ∧
    (List.range 2).zip ([0, 2] : List Nat) ≠ (List.range 2).zip [1, 2] := by
  refine ⟨perform_clustering_cache_override (fun x k => [x, k]) 0 1 2 3 (by decide) (by decide), by decide⟩

/-- One term of pandas `Rolling.std` (default ddof = 1): NaN for a window of
fewer than two observations, else the square root of the sample variance
`sqDevSum/(n-1)`. -/
noncomputable def sampleStd (xs : List ℚ) : Option ℝ :=
  if xs.length ≤ 1 then none
  else some (Real.sqrt ((sqDevSum xs / ((xs.length : ℚ) - 1) : ℚ) : ℝ))

/-- One volatility column of `TimeWindowAnalyzer.analyze_volatility`:
`returns.rolling(window=window).std() * np.sqrt(252)`; entries before the
first full window (pandas `min_periods = window`) are NaN. -/
noncomputable def rollingVolCol (w : Nat) (rs : List ℚ) : List (Option ℝ) :=
  (List.range rs.length).map fun t =>
    if t + 1 < w then none
    else (sampleStd ((rs.drop (t + 1 - w)).take w)).map fun s => s * Real.sqrt 252

/-- Pandas column assignment `frame[name] = series` when the frame already
has index `idx`: if the series' index equals the frame's, the values are
taken directly (a path that tolerates duplicate labels); otherwise the
series is reindexed to `idx`, which requires the series' own labels to be
unique (else `ValueError: cannot reindex from a duplicate axis`) and fills
NaN at frame labels the series lacks. -/
def reindexSeries {β : Type} (idx : List Nat) (s : List (Nat × β)) :
    Except AnalysisError (List (Option β)) :=
  if s.map Prod.fst = idx then .ok (s.map fun r => some r.2)
  else if (s.map Prod.fst).Nodup then .ok (idx.map fun d => s.lookup d)
  else .error .duplicateAxis

/-- The volatility series of one prepared instrument, carried with its date
index (as `volatility = returns.rolling(window).std() * np.sqrt(252)` is). -/
noncomputable def volSeriesOf (w : Nat) (p : PreparedFrame) : List (Nat × Option ℝ) :=
  (frameDates p.rows).zip (rollingVolCol w ((calculate_returns p).map Prod.snd))

/-- Assembly loop of `analyze_volatility` after the first column has fixed
the index `idx` of `volatility_data`: prepare each remaining instrument,
align its volatility series to `idx` (a cell is NaN when the label is absent
or the volatility itself is NaN; a duplicate-axis failure propagates), and
append the column. -/
noncomputable def analyze_volatility_from (idx : List Nat) :
    List (String × RawFrame) → Nat → Except AnalysisError (List (String × List (Option ℝ)))
  | [], _ => .ok []
  | (n, df) :: rest, w =>
    match prepare_data df with
    | .error e => .error e
    | .ok p =>
      match reindexSeries idx (volSeriesOf w p) with
      | .error e => .error e
      | .ok col =>
        match analyze_volatility_from idx rest w with
        | .error e => .error e
        | .ok tail => .ok ((n, col.map Option.join) :: tail)

/-- `TimeWindowAnalyzer.analyze_volatility`: the first instrument's
volatility series fixes the index of `volatility_data` (assignment into the
initially empty frame takes the series' index as is); every later column is
aligned to that index.  The method has no try/except: the schema error of
`_prepare_data` and the duplicate-axis error of the assembly propagate, and
nothing else is raised — in particular never an insufficient-data error. -/
noncomputable def analyze_volatility :
    List (String × RawFrame) → Nat → Except AnalysisError (List (String × List (Option ℝ)))
  | [], _ => .ok []
  | (n, df) :: rest, w =>
    match prepare_data df with
    | .error e => .error e
    | .ok p =>
      match analyze_volatility_from (frameDates p.rows) rest w with
      | .error e => .error e
      | .ok tail => .ok ((n, (volSeriesOf w p).map Prod.snd) :: tail)

/-- Volume column selection of `analyze_volume_price_correlation`: use
`volume`, else fall back to `vol` (copied into `volume`), else the instrument
is skipped. -/
def volumeColOf (p : PreparedFrame) : Option (List (Option ℚ)) :=
  if p.numNames.contains "volume" then some (colOf p.rows (p.numNames.indexOf "volume"))
  else if p.numNames.contains "vol" then some (colOf p.rows (p.numNames.indexOf "vol"))
  else none

/-- One column of `price_return.rolling(window=window).corr(volume_change)`:
pairwise rolling Pearson correlation; a window reaching a NaN of the volume
change (its first entry), or not yet full, is NaN; a zero-variance window is
NaN through `pearson` itself. -/
noncomputable def rollingCorrPair (w : Nat) (xs : List ℚ) (ys : List (Option ℚ)) :
    List (Option ℝ) :=
  (List.range (min xs.length ys.length)).map fun t =>
    if t + 1 < w then none
    else
      if ((ys.drop (t + 1 - w)).take w).all Option.isSome then
        pearson (((xs.drop (t + 1 - w)).take w).map some) ((ys.drop (t + 1 - w)).take w)
      else none

/-- The volume-price rolling-correlation series of one prepared instrument,
with its date index. -/
noncomputable def vpSeriesOf (w : Nat) (p : PreparedFrame) (vc : List (Option ℚ)) :
    List (Nat × Option ℝ) :=
  (frameDates p.rows).zip
    (rollingCorrPair w ((calculate_returns p).map Prod.snd) (pct_change vc))

/-- Loop of `analyze_volume_price_correlation`: instruments without a volume
field are skipped (omitted, not an error); the first assigned column fixes
the frame index (`idx` goes from `none` to `some`), later columns are
aligned to it; schema and duplicate-axis errors propagate; nothing else
raises. -/
noncomputable def analyze_volume_price_from (idx : Option (List Nat)) :
    List (String × RawFrame) → Nat → Except AnalysisError (List (String × List (Option ℝ)))
  | [], _ => .ok []
  | (n, df) :: rest, w =>
    match prepare_data df with
    | .error e => .error e
    | .ok p =>
      match volumeColOf p with
      | none => analyze_volume_price_from idx rest w
      | some vc =>
        match idx with
        | none =>
          match analyze_volume_price_from (some (frameDates p.rows)) rest w with
          | .error e => .error e
          | .ok tail => .ok ((n, (vpSeriesOf w p vc).map Prod.snd) :: tail)
        | some ix =>
          match reindexSeries ix (vpSeriesOf w p vc) with
          | .error e => .error e
          | .ok col =>
            match analyze_volume_price_from idx rest w with
            | .error e => .error e
            | .ok tail => .ok ((n, col.map Option.join) :: tail)

/-- `TimeWindowAnalyzer.analyze_volume_price_correlation`: the loop above,
started with no frame index established. -/
noncomputable def analyze_volume_price_correlation
    (sd : List (String × RawFrame)) (w : Nat) :
    Except AnalysisError (List (String × List (Option ℝ))) :=
  analyze_volume_price_from none sd w

/-- The per-instrument return series of `calculate_rolling_correlation`
(prepared and with its date index), before assembly into one table. -/
def seriesTable :
    List (String × RawFrame) → Except AnalysisError (List (String × List (Nat × ℚ)))
  | [] => .ok []
  | (n, df) :: rest =>
    match prepare_data df with
    | .error e => .error e
    | .ok p =>
      match seriesTable rest with
      | .error e => .error e
      | .ok tail => .ok ((n, calculate_returns p) :: tail)

/-- Align every remaining return series to the frame index `idx` fixed by
the first column, propagating the duplicate-axis error of `reindexSeries`. -/
def alignColumns (idx : List Nat) :
    List (String × List (Nat × ℚ)) → Except AnalysisError (List (List (Option ℚ)))
  | [] => .ok []
  | s :: rest =>
    match reindexSeries idx s.2 with
    | .error e => .error e
    | .ok col =>
      match alignColumns idx rest with
      | .error e => .error e
      | .ok cols => .ok (col :: cols)

/-- The `returns_data` table of `calculate_rolling_correlation`: the first
instrument's return series fixes the index, later columns are aligned to it;
one row per index position, NaN where an instrument has no observation on
that label. -/
def alignedRows (sd : List (String × RawFrame)) :
    Except AnalysisError (List (Nat × List (Option ℚ))) :=
  match seriesTable sd with
  | .error e => .error e
  | .ok [] => .ok []
  | .ok (c :: rest) =>
    match alignColumns (c.2.map Prod.fst) rest with
    | .error e => .error e
    | .ok cols =>
      .ok ((List.range c.2.length).map fun t =>
        ((c.2.map Prod.fst).getD t 0,
          ((c.2.map fun r => some r.2) :: cols).map fun col => col.getD t none))

def allSomeRow : List (Option ℚ) → Option (List ℚ)
  | [] => some []
  | none :: _ => none
  | some v :: vs => (allSomeRow vs).map fun ws => v :: ws

/-- `returns_data.dropna()`: keep the rows where every column is defined. -/
def dropnaTable (rows : List (Nat × List (Option ℚ))) : List (Nat × List ℚ) :=
  rows.filterMap fun dv => (allSomeRow dv.2).map fun ws => (dv.1, ws)

def cleanColAt (clean : List (Nat × List ℚ)) (i : Nat) : List ℚ :=
  clean.map fun r => r.2.getD i 0

/-- `returns_data.rolling(window=window).corr()`: per date, the pairwise
Pearson matrix of the trailing window (NaN before the first full window). -/
noncomputable def rollingCorrMatrices (w nCols : Nat) (clean : List (Nat × List ℚ)) :
    List (Nat × List (List (Option ℝ))) :=
  (List.range clean.length).map fun t =>
    ((clean.getD t (0, [])).1,
      (List.range nCols).map fun i =>
        (List.range nCols).map fun j =>
          if t + 1 < w then none
          else
            pearson ((((cleanColAt clean i).drop (t + 1 - w)).take w).map some)
              ((((cleanColAt clean j).drop (t + 1 - w)).take w).map some))

/-- `TimeWindowAnalyzer.calculate_rolling_correlation`: everything runs inside
`try`; any exception (schema error from `_prepare_data`, or the explicit
`ValueError` when the aligned table is empty) is caught, a warning issued,
and an empty table returned.  The function therefore never raises. -/
noncomputable def calculate_rolling_correlation (sd : List (String × RawFrame)) (w : Nat) :
    List (Nat × List (List (Option ℝ))) :=
  match alignedRows sd with
  | .error _ => []
  | .ok rows =>
    if (dropnaTable rows).isEmpty then []
    else rollingCorrMatrices w sd.length (dropnaTable rows)

theorem prepare_data_error (df : RawFrame) (e : AnalysisError)
    (h : prepare_data df = .error e) : e = .schemaError := by
  unfold prepare_data at h
  by_cases hv : validate df = true
  · simp [hv] at h
  · simp [hv] at h
    exact h.symm

theorem prepare_rows_length (df : RawFrame) (p : PreparedFrame)
    (hok : prepare_data df = .ok p) : p.rows.length = df.rows.length := by
  unfold prepare_data at hok
  by_cases hv : validate df = true
  · simp [hv] at hok
    rw [← hok]
    simp [ffillRows_length, List.length_insertionSort]
  · simp [hv] at hok

theorem rollingVolCol_length (w : Nat) (rs : List ℚ) :
    (rollingVolCol w rs).length = rs.length := by
  simp [rollingVolCol]

theorem rollingVolCol_short (w : Nat) (rs : List ℚ) (h : rs.length < w) :
    rollingVolCol w rs = List.replicate rs.length none := by
  apply List.ext_getElem
  · simp [rollingVolCol_length]
  · intro i h1 h2
    simp only [rollingVolCol, List.getElem_map, List.getElem_range,
      List.getElem_replicate] at h1 ⊢
    have hi : i < rs.length := by simpa using h1
    rw [if_pos (by omega : i + 1 < w)]

theorem reindexSeries_error {β : Type} (idx : List Nat) (s : List (Nat × β))
    (e : AnalysisError) (h : reindexSeries idx s = .error e) : e = .duplicateAxis := by
  unfold reindexSeries at h
  by_cases h1 : s.map Prod.fst = idx
  · rw [if_pos h1] at h
    simp at h
  · rw [if_neg h1] at h
    by_cases h2 : (s.map Prod.fst).Nodup
    · rw [if_pos h2] at h
      simp at h
    · rw [if_neg h2] at h
      simpa using h.symm

theorem analyze_volatility_from_errors (w : Nat) :
    ∀ (idx : List Nat) (sd : List (String × RawFrame)) (e : AnalysisError),
      analyze_volatility_from idx sd w = .error e →
      e = .schemaError ∨ e = .duplicateAxis
  | idx, [], e => by
    intro h
    simp [analyze_volatility_from] at h
  | idx, (n, df) :: rest, e => by
    intro h
    rw [analyze_volatility_from] at h
    cases hp : prepare_data df with
    | error e2 =>
      rw [hp] at h
      have he : e2 = e := by simpa using h
      exact Or.inl (he ▸ prepare_data_error df e2 hp)
    | ok p =>
      rw [hp] at h
      dsimp only at h
      cases hr : reindexSeries idx (volSeriesOf w p) with
      | error e2 =>
        rw [hr] at h
        have he : e2 = e := by simpa using h
        exact Or.inr (he ▸ reindexSeries_error idx _ e2 hr)
      | ok col =>
        rw [hr] at h
        dsimp only at h
        cases ht : analyze_volatility_from idx rest w with
        | error e2 =>
          rw [ht] at h
          have he : e2 = e := by simpa using h
          exact he ▸ analyze_volatility_from_errors w idx rest e2 ht
        | ok tail =>
          rw [ht] at h
          simp at h

theorem analyze_volatility_errors (sd : List (String × RawFrame)) (w : Nat)
    (e : AnalysisError) (h : analyze_volatility sd w = .error e) :
    e = .schemaError ∨ e = .duplicateAxis := by
  cases sd with
  | nil => simp [analyze_volatility] at h
  | cons nd rest =>
    obtain ⟨n, df⟩ := nd
    rw [analyze_volatility] at h
    cases hp : prepare_data df with
    | error e2 =>
      rw [hp] at h
      have he : e2 = e := by simpa using h
      exact Or.inl (he ▸ prepare_data_error df e2 hp)
    | ok p =>
      rw [hp] at h
      dsimp only at h
      cases ht : analyze_volatility_from (frameDates p.rows) rest w with
      | error e2 =>
        rw [ht] at h
        have he : e2 = e := by simpa using h
        exact he ▸ analyze_volatility_from_errors w _ rest e2 ht
      | ok tail =>
        rw [ht] at h
        simp at h

theorem analyze_volume_price_from_errors (w : Nat) :
    ∀ (idx : Option (List Nat)) (sd : List (String × RawFrame)) (e : AnalysisError),
      analyze_volume_price_from idx sd w = .error e →
      e = .schemaError ∨ e = .duplicateAxis
  | idx, [], e => by
    intro h
    simp [analyze_volume_price_from] at h
  | idx, (n, df) :: rest, e => by
    intro h
    rw [analyze_volume_price_from] at h
    cases hp : prepare_data df with
    | error e2 =>
      rw [hp] at h
      have he : e2 = e := by simpa using h
      exact Or.inl (he ▸ prepare_data_error df e2 hp)
    | ok p =>
      rw [hp] at h
      dsimp only at h
      cases hv : volumeColOf p with
      | none =>
        rw [hv] at h
        exact analyze_volume_price_from_errors w idx rest e (by simpa using h)
      | some vc =>
        rw [hv] at h
        dsimp only at h
        cases idx with
        | none =>
          dsimp only at h
          cases ht : analyze_volume_price_from (some (frameDates p.rows)) rest w with
          | error e2 =>
            rw [ht] at h
            have he : e2 = e := by simpa using h
            exact he ▸ analyze_volume_price_from_errors w _ rest e2 ht
          | ok tail =>
            rw [ht] at h
            simp at h
        | some ix =>
          dsimp only at h
          cases hr : reindexSeries ix (vpSeriesOf w p vc) with
          | error e2 =>
            rw [hr] at h
            have he : e2 = e := by simpa using h
            exact Or.inr (he ▸ reindexSeries_error ix _ e2 hr)
          | ok col =>
            rw [hr] at h
            dsimp only at h
            cases ht : analyze_volume_price_from (some ix) rest w with
            | error e2 =>
              rw [ht] at h
              have he : e2 = e := by simpa using h
              exact he ▸ analyze_volume_price_from_errors w _ rest e2 ht
            | ok tail =>
              rw [ht] at h
              simp at h

theorem analyze_volatility_from_names (w : Nat) :
    ∀ (idx : List Nat) (sd : List (String × RawFrame)) (out : List (String × List (Option ℝ))),
      analyze_volatility_from idx sd w = .ok out → out.map Prod.fst = sd.map Prod.fst
  | idx, [], out => by
    intro h
    simp [analyze_volatility_from] at h
    simp [← h]
  | idx, (n, df) :: rest, out => by
    intro h
    rw [analyze_volatility_from] at h
    cases hp : prepare_data df with
    | error e2 =>
      rw [hp] at h
      simp at h
    | ok p =>
      rw [hp] at h
      dsimp only at h
      cases hr : reindexSeries idx (volSeriesOf w p) with
      | error e2 =>
        rw [hr] at h
        simp at h
      | ok col =>
        rw [hr] at h
        dsimp only at h
        cases ht : analyze_volatility_from idx rest w with
        | error e2 =>
          rw [ht] at h
          simp at h
        | ok tail =>
          rw [ht] at h
          have hout : out = (n, col.map Option.join) :: tail := by simpa using h.symm
          subst hout
          simp [analyze_volatility_from_names w idx rest tail ht]

theorem analyze_volatility_names (sd : List (String × RawFrame)) (w : Nat)
    (out : List (String × List (Option ℝ))) (h : analyze_volatility sd w = .ok out) :
    out.map Prod.fst = sd.map Prod.fst := by
  cases sd with
  | nil =>
    simp [analyze_volatility] at h
    simp [← h]
  | cons nd rest =>
    obtain ⟨n, df⟩ := nd
    rw [analyze_volatility] at h
    cases hp : prepare_data df with
    | error e2 =>
      rw [hp] at h
      simp at h
    | ok p =>
      rw [hp] at h
      dsimp only at h
      cases ht : analyze_volatility_from (frameDates p.rows) rest w with
      | error e2 =>
        rw [ht] at h
        simp at h
      | ok tail =>
        rw [ht] at h
        have hout : out = (n, (volSeriesOf w p).map Prod.snd) :: tail := by simpa using h.symm
        subst hout
        simp [analyze_volatility_from_names w _ rest tail ht]

/-- C8 claims all three rolling operations fail with `InsufficientDataError`
when no instrument has `window` observations.  None of them does: the amended
statement is that volatility and volume-price correlation never produce an
insufficient-data error — the only raisable errors are the schema error of
`_prepare_data` and the duplicate-axis reindex error of the pandas column
assembly — the volatility result covers every input instrument, an
instrument with fewer than `window` rows yields an entirely undefined column
rather than an error, and `calculate_rolling_correlation` catches every
exception and returns an empty table instead of failing. -/
theorem rolling_ops_error_behavior :
    (∀ (sd : List (String × RawFrame)) (w : Nat),
      analyze_volatility sd w ≠ .error .insufficientData) ∧
    (∀ (sd : List (String × RawFrame)) (w : Nat),
      analyze_volume_price_correlation sd w ≠ .error .insufficientData) ∧
    (∀ (sd : List (String × RawFrame)) (w : Nat) (e : AnalysisError),
      analyze_volatility sd w = .error e → e = .schemaError ∨ e = .duplicateAxis) ∧
    (∀ (sd : List (String × RawFrame)) (w : Nat) (e : AnalysisError),
      analyze_volume_price_correlation sd w = .error e →
        e = .schemaError ∨ e = .duplicateAxis) ∧
    (∀ (sd : List (String × RawFrame)) (w : Nat) (out : List (String × List (Option ℝ))),
      analyze_volatility sd w = .ok out → out.map Prod.fst = sd.map Prod.fst) ∧
    (∀ (name : String) (df : RawFrame) (w : Nat), validate df = true → df.rows.length < w →
      analyze_volatility [(name, df)] w = .ok [(name, List.replicate df.rows.length none)]) ∧
    (∀ (sd : List (String × RawFrame)) (w : Nat) (e : AnalysisError),
      alignedRows sd = .error e → calculate_rolling_correlation sd w = []) := by
  have hvperr : ∀ (sd : List (String × RawFrame)) (w : Nat) (e : AnalysisError),
      analyze_volume_price_correlation sd w = .error e →
      e = .schemaError ∨ e = .duplicateAxis := fun sd w e h =>
    analyze_volume_price_from_errors w none sd e h
  refine ⟨fun sd w h => ?_, fun sd w h => ?_, analyze_volatility_errors, hvperr,
    analyze_volatility_names, ?_, ?_⟩
  · rcases analyze_volatility_errors sd w _ h with h2 | h2 <;> simp at h2
  · rcases hvperr sd w _ h with h2 | h2 <;> simp at h2
  · intro name df w hv hlen
    have hp : prepare_data df =
        .ok ⟨df.numNames, ffillRows [] (List.insertionSort rowLe df.rows)⟩ := by
      unfold prepare_data
      rw [if_pos hv]
    rw [analyze_volatility, hp]
    dsimp only
    rw [show analyze_volatility_from
      (frameDates (ffillRows [] (List.insertionSort rowLe df.rows))) [] w = .ok [] from rfl]
    dsimp only
    have hrl : ((calculate_returns ⟨df.numNames, ffillRows []
        (List.insertionSort rowLe df.rows)⟩).map Prod.snd).length = df.rows.length := by
      rw [List.length_map, calculate_returns_length]
      exact prepare_rows_length df _ hp
    have hdl : (frameDates (ffillRows [] (List.insertionSort rowLe df.rows))).length =
        df.rows.length := by
      rw [frameDates_length, ffillRows_length, List.length_insertionSort]
    unfold volSeriesOf
    rw [rollingVolCol_short w _ (by rw [hrl]; exact hlen), hrl,
      List.map_snd_zip _ _ (by rw [hdl, List.length_replicate])]
  · intro sd w e h
    unfold calculate_rolling_correlation
    rw [h]

/-- C8 counterexample: a single instrument with only two rows and window 20 —
no instrument reaches the window — yet `analyze_volatility` does not fail: it
returns a table whose single column is entirely undefined. -/
theorem analyze_volatility_short_no_error :
    analyze_volatility [("A", ⟨true, ["close"], [(1, [some 5]), (2, [some 6])]⟩)] 20 =
      .ok [("A", [none, none])] := rfl

/-- C8 witness: a two-row instrument under window 3 gets a fully undefined
column; rolling correlation returns the empty table when preparation fails;
and the assembly's duplicate-axis error path (a later instrument with a
duplicated trade date, accepted by `_prepare_data`) produces an error that
is, as the theorem states, never the insufficient-data error. -/
theorem rolling_ops_error_behavior_witness :
    analyze_volatility [("B", ⟨true, ["close"], [(4, [some 7]), (5, [some 8])]⟩)] 3 =
      .ok [("B", List.replicate 2 none)] ∧
    calculate_rolling_correlation [("C", ⟨true, ["open"], [(1, [some 2])]⟩)] 5 = [] ∧
    analyze_volatility [("A", ⟨true, ["close"], [(1, [some 5]), (2, [some 6])]⟩),
      ("B", ⟨true, ["close"], [(1, [some 5]), (1, [some 6])]⟩)] 5 = .error .duplicateAxis ∧
    analyze_volatility [("A", ⟨true, ["close"], [(1, [some 5]), (2, [some 6])]⟩),
      ("B", ⟨true, ["close"], [(1, [some 5]), (1, [some 6])]⟩)] 5 ≠
        .error .insufficientData := by
  refine ⟨rolling_ops_error_behavior.2.2.2.2.2.1 "B"
      ⟨true, ["close"], [(4, [some 7]), (5, [some 8])]⟩ 3 (by decide) (by decide),
    rolling_ops_error_behavior.2.2.2.2.2.2 [("C", ⟨true, ["open"], [(1, [some 2])]⟩)] 5
      .schemaError rfl, ?_,
    rolling_ops_error_behavior.1 [("A", ⟨true, ["close"], [(1, [some 5]), (2, [some 6])]⟩),
      ("B", ⟨true, ["close"], [(1, [some 5]), (1, [some 6])]⟩)] 5⟩
  rfl

theorem listMean_const (r : ℚ) (xs : List ℚ) (hne : xs ≠ []) (h : ∀ x ∈ xs, x = r) :
    listMean xs = r := by
  unfold listMean
  rw [List.sum_eq_card_nsmul xs r h, nsmul_eq_mul]
  have hlen : (xs.length : ℚ) ≠ 0 :=
    Nat.cast_ne_zero.mpr (by simpa [List.length_eq_zero] using hne)
  exact mul_div_cancel_left₀ r hlen

theorem sqDevSum_const (r : ℚ) (xs : List ℚ) (h : ∀ x ∈ xs, x = r) : sqDevSum xs = 0 := by
  rcases hxs : xs with _ | ⟨a, t⟩
  · rfl
  · subst hxs
    have hm : listMean (a :: t) = r := listMean_const r _ (by simp) h
    apply List.sum_eq_zero
    intro x hx
    obtain ⟨y, hy, rfl⟩ := List.mem_map.mp hx
    rw [h y hy, hm, sub_self]
    norm_num

/-- C9 claims the first `W-1` rows are undefined and constant returns give 0
on every fully-windowed row, for every window size.  With pandas ddof = 1 a
window of a single observation is NaN, so `W = 1` falsifies the claim (see
the counterexample); amended to `W ≥ 2`: rows before the first full window
are undefined, and on constant returns every fully-windowed row is exactly 0
(the annualization factor `sqrt 252` multiplies a zero standard deviation). -/
theorem rolling_volatility_spec :
    (∀ (w : Nat) (rs : List ℚ) (t : Nat), t < rs.length → t + 1 < w →
      (rollingVolCol w rs).getD t none = none) ∧
    (∀ (w : Nat) (rs : List ℚ) (r : ℚ) (t : Nat), 2 ≤ w → (∀ x ∈ rs, x = r) →
      t < rs.length → w ≤ t + 1 →
      (rollingVolCol w rs).getD t none = some 0) := by
  constructor
  · intro w rs t ht hw
    have h1 : t < (rollingVolCol w rs).length := by rw [rollingVolCol_length]; exact ht
    rw [List.getD_eq_getElem _ _ h1]
    simp only [rollingVolCol, List.getElem_map, List.getElem_range]
    rw [if_pos hw]
  · intro w rs r t hw hconst ht hfull
    have h1 : t < (rollingVolCol w rs).length := by rw [rollingVolCol_length]; exact ht
    rw [List.getD_eq_getElem _ _ h1]
    simp only [rollingVolCol, List.getElem_map, List.getElem_range]
    rw [if_neg (by omega)]
    have hwin : ∀ x ∈ (rs.drop (t + 1 - w)).take w, x = r := fun x hx =>
      hconst x (List.drop_subset _ rs (List.take_subset _ _ hx))
    have hlenw : ((rs.drop (t + 1 - w)).take w).length = w := by
      rw [List.length_take, List.length_drop]
      omega
    unfold sampleStd
    rw [if_neg (by rw [hlenw]; omega)]
    rw [sqDevSum_const r _ hwin]
    simp

/-- C9 counterexample: with window 1 and constant closes (hence constant zero
returns), pandas `Rolling.std` (ddof = 1) is NaN on every row, so every
"fully-windowed" row of the volatility table is undefined, not 0. -/
theorem rolling_volatility_window_one :
    analyze_volatility [("A", ⟨true, ["close"], [(1, [some 5]), (2, [some 5])]⟩)] 1 =
      .ok [("A", [none, none])] := rfl

/-- C9 witness: window 2 over constant returns `[5, 5, 5]` gives an undefined
first row and exact zeros on the two fully-windowed rows. -/
theorem rolling_volatility_spec_witness :
    (rollingVolCol 2 [5, 5, 5]).getD 0 none = none ∧
    (rollingVolCol 2 [5, 5, 5]).getD 1 none = some 0 ∧
    (rollingVolCol 2 [5, 5, 5]).getD 2 none = some 0 :=
  ⟨rolling_volatility_spec.1 2 [5, 5, 5] 0 (by decide) (by decide),
    rolling_volatility_spec.2 2 [5, 5, 5] 5 1 (by decide) (by decide) (by decide) (by decide),
    rolling_volatility_spec.2 2 [5, 5, 5] 5 2 (by decide) (by decide) (by decide) (by decide)⟩
